import Mathlib

/-!
Verification of the request-dispatch and installation-execution core of the
node typings-installer worker (`src/server/typingsInstaller/nodeTypingsInstaller.ts`).

Pure functions of the source are translated directly; the file system, the
subprocess runner (`execSync`) and the JSON parser are platform services and
are passed in as explicit parameters, so that every definition stays
executable and total.  Paths are modelled as lists of components
(root = `[]`); strings keep JavaScript string semantics where the source
relies on them (`indexOf`).
-/

namespace NodeTypingsInstaller

/-- Models the substring search `s.indexOf(sub)` of JavaScript strings:
the least index at which `sub` occurs in `s`, or `-1` when it does not occur. -/
def jsIndexOfAux (sub : List Char) : List Char → Nat → Int
  | l, i =>
    if sub.isPrefixOf l then (i : Int)
    else
      match l with
      | [] => -1
      | _ :: t => jsIndexOfAux sub t (i + 1)

/-- Models `s.indexOf(sub)` on whole strings. -/
def jsIndexOf (s sub : String) : Int :=
  jsIndexOfAux sub.data s.data 0

/-- Models the checker `stringContains` used at line 91 of the source:
true iff `sub` occurs somewhere in `s` (JavaScript `indexOf(sub) !== -1`). -/
def stringContains (s sub : String) : Bool :=
  jsIndexOf s sub != -1

/-- Splits a character list on a separator character. -/
def splitChar (sep : Char) (l : List Char) : List (List Char) :=
  l.foldr
    (fun c acc =>
      if c = sep then [] :: acc
      else
        match acc with
        | h :: t => (c :: h) :: t
        | [] => [[c]])
    [[]]

/-- Slash-separated nonempty segments of a POSIX path. -/
def pathSegments (p : String) : List (List Char) :=
  (splitChar (Char.ofNat 47) p.data).filter (fun s => !s.isEmpty)

/-- Models the platform service `path.basename` for POSIX paths given as
strings: the last nonempty slash-separated segment, or `""` when there is none. -/
def basename (p : String) : String :=
  match (pathSegments p).getLast? with
  | some s => String.mk s
  | none => ""

/-- Models the platform service `path.dirname` for POSIX paths given as
strings: everything before the last slash-separated segment. -/
def dirname (p : String) : String :=
  let parts := pathSegments p
  let absolute := p.data.head? = some (Char.ofNat 47)
  if parts.length ≤ 1 then
    (if absolute then "/" else ".")
  else
    (if absolute then "/" else "")
      ++ String.intercalate "/" (parts.dropLast.map String.mk)

/-- Models the platform service `path.join` on two segments. -/
def pathJoin (a b : String) : String :=
  if a = "" then b
  else if a = "/" then "/" ++ b
  else a ++ "/" ++ b

/-- Translation of `getDefaultNPMLocation` (source lines 34-41): used when
`--npmLocation` is not passed.  The source tests
`path.basename(processName).indexOf("node") === 0` and, when it holds, returns
the quoted sibling path of `process.argv[0]`; `argv0` stands for
`process.argv[0]`. -/
def getDefaultNPMLocation (argv0 : String) (processName : String) : String :=
  if jsIndexOf (basename processName) "node" = 0 then
    "\"" ++ pathJoin (dirname argv0) "npm" ++ "\""
  else
    "npm"

/-- Translation of the npm-path resolution in the constructor (source lines
88-93): an explicit `npmLocation` wins, otherwise the platform default; then
the result is wrapped in quotes when it contains a space and is not already
quoted. -/
def computeNpmPath (npmLocation : Option String) (argv0 : String) : String :=
  let p := match npmLocation with
    | some l => l
    | none => getDefaultNPMLocation argv0 argv0
  if stringContains p " " && p.data.head? ≠ some (Char.ofNat 34) then "\"" ++ p ++ "\"" else p

/-! ## Registry cache loader (source lines 43-64) -/

/-- Models a parsed JSON value as far as the loader inspects it: an object
with named fields, or any other (atomic / array) value. -/
inductive JVal where
  | obj (fields : List (String × JVal))
  | prim

/-- Looks a field up in a parsed JSON object, as the property access
`content.entries` does on an object value. -/
def jLookup : List (String × JVal) → String → Option JVal
  | [], _ => none
  | (k, v) :: rest, key => if k = key then some v else jLookup rest key

/-- Extraction of the field list of `content.entries` when the parsed document
has the shape `{entries: {...}}`; `none` when the parsed value is not an
object or its `entries` field is not an object. -/
def jsEntriesOf (v : JVal) : Option (List String) :=
  match v with
  | JVal.obj fields =>
    match jLookup fields "entries" with
    | some (JVal.obj entryFields) => some (entryFields.map Prod.fst)
    | _ => none
  | JVal.prim => none

/-- Modelled from the spec: `createMapFromTemplate` lives outside `src/` (a
core utility of the repository); the spec says loading a well-shaped document
produces a snapshot whose keys equal exactly the `entries` keys, and a
malformed document yields an empty snapshot.  The snapshot is modelled as its
key list. -/
def createMapFromTemplate (entries : Option (List String)) : List String :=
  entries.getD []

/-- Translation of `loadTypesRegistryFile` (source lines 47-64).  The file
system and JSON parser are platform services: `fileExistsB` is the outcome of
`host.fileExists(typesRegistryFilePath)`, and `parseOutcome` the combined
outcome of `host.readFile` + `JSON.parse` (`Except.error m` models a thrown
exception with message `m`, caught by the try/catch of the source).
Returns the snapshot key list together with the diagnostic lines written,
which are emitted only when logging is enabled. -/
def loadTypesRegistryFile (fileExistsB : Bool) (parseOutcome : Except String JVal)
    (logEnabled : Bool) : List String × List String :=
  if !fileExistsB then
    (createMapFromTemplate none,
      if logEnabled then ["Types registry file does not exist"] else [])
  else
    match parseOutcome with
    | Except.ok content => (createMapFromTemplate (jsEntriesOf content), [])
    | Except.error m =>
      (createMapFromTemplate none,
        if logEnabled then ["Error when loading types registry file: " ++ m] else [])

/-! ## Package-root resolver (source lines 199-205) -/

/-- Builds the ancestor chain from the reversed component list of a
directory: successively dropping the last component, down to the root. -/
def ancestorChain : List String → List (List String)
  | [] => [[]]
  | a :: t => (a :: t).reverse :: ancestorChain t

/-- Modelled from the spec: the ancestor chain walked by
`forEachAncestorDirectory` (a repository utility outside `src/`), nearest
directory first, down to and including the root `[]`. -/
def ancestorDirectories (dir : List String) : List (List String) :=
  ancestorChain dir.reverse

/-- Modelled from the spec: `forEachAncestorDirectory` (outside `src/`)
applies the callback to each ancestor directory starting at `dir` and walking
upward, returning the first defined result, or `none` when the callback is
undefined on every ancestor up to and including the root. -/
def forEachAncestorDirectory (dir : List String)
    (callback : List String → Option (List String)) : Option (List String) :=
  (ancestorDirectories dir).findSome? callback

/-- Translation of `getDirectoryOfPackageJson` (source lines 199-205): probes
each ancestor directory of the directory containing `fileName` for a
`package.json` file; `fileExists` is the file-system probe
`host.fileExists`. -/
def getDirectoryOfPackageJson (fileName : List String)
    (fileExists : List String → Bool) : Option (List String) :=
  forEachAncestorDirectory fileName.dropLast (fun directory =>
    if fileExists (directory ++ ["package.json"]) then some directory else none)

/-! ## Diagnostic sink (source lines 15-31) -/

/-- Translation of the state of class `FileLog`: the optional log file fixed
at construction and the mutable `logEnabled` flag, initially `true`. -/
structure FileLog where
  logFile : Option String
  logEnabled : Bool := true
deriving DecidableEq

/-- Translation of `FileLog.isEnabled` (source lines 20-22). -/
def FileLog.isEnabled (l : FileLog) : Bool :=
  l.logEnabled && l.logFile.isSome

/-- Translation of `FileLog.writeLine` (source lines 23-30): the append to the
log file is a platform service whose outcome is `appendOutcome`; when it
throws, the catch clears `logEnabled`; nothing propagates. -/
def FileLog.writeLine (l : FileLog) (appendOutcome : Except Unit Unit) : FileLog :=
  match appendOutcome with
  | Except.ok _ => l
  | Except.error _ => { l with logEnabled := false }

/-- Runs a sequence of `writeLine` calls with the given append outcomes. -/
def FileLog.runWrites (l : FileLog) (outcomes : List (Except Unit Unit)) : FileLog :=
  outcomes.foldl FileLog.writeLine l

/-! ## Installer process (source lines 73-196) -/

/-- Models the error object thrown by a failing `execSync` call: its message
and the partial output streams it carries. -/
structure ExecError where
  message : String := ""
  stdout : Option String := none
  stderr : Option String := none

/-- Models the outbound responses sent with `sendResponse`.  Responses of the
delegated `discover` / `closeProject` handling live in the reused base class
(an external collaborator) and are opaque here, tagged `base`. -/
inductive Response where
  | initializationFailed (message : String)
  | typesRegistry (registry : List String)
  | packageInstalled (success : Bool) (message : String)
  | base (tag : String)
deriving DecidableEq

/-- Models an issued `execSync` call: the command line and the working
directory passed in its options (`none` models an undefined `cwd`). -/
structure ExecCall where
  command : String
  cwd : Option (List String)
deriving DecidableEq

/-- Static configuration of a `NodeTypingsInstaller` instance together with
the platform services it uses: `npmPath` and `version` are the fields read
when building command lines, `typesRegistry` the snapshot loaded at
bootstrap, `fileExists` the file-system probe and `exec` the synchronous
subprocess runner (`Except.ok` models a clean exit carrying stdout,
`Except.error` a thrown failure). -/
structure Config where
  npmPath : String
  version : String
  typesRegistry : List String
  fileExists : List String → Bool
  exec : String → Option (List String) → Except ExecError String

/-- Mutable state of the installer process observed by the message loop: the
`delayedInitializationError` field (source line 78), holding the message of a
pending `event::initializationFailed` response. -/
structure InstallerState where
  delayed : Option String
deriving DecidableEq

/-- Translation of the bootstrap try/catch (source lines 103-121):
`updateOutcome` is the outcome of the `execSync` call updating the
`types-registry` package; on failure its message is stored as the delayed
initialization error, on success nothing is stored. -/
def bootstrapState (updateOutcome : Except ExecError String) : InstallerState :=
  match updateOutcome with
  | Except.ok _ => { delayed := none }
  | Except.error e => { delayed := some e.message }

/-- Translation of the command built by `installWorker` (source line 179). -/
def installCommand (npmPath ver : String) (packageNames : List String) : String :=
  npmPath ++ " install --ignore-scripts " ++ String.intercalate " " packageNames
    ++ " --save-dev --user-agent=\"typesInstaller/" ++ ver ++ "\""

/-- Translation of `installWorker` (source lines 175-196): builds the command,
runs it synchronously, absorbs a thrown failure into `hasError`, and invokes
the continuation with `!hasError` before returning.  The continuation result
and the issued call are returned so the caller observes both. -/
def installWorker (cfg : Config) (requestId : Int) (packageNames : List String)
    (cwd : Option (List String)) (onRequestCompleted : Bool → List Response) :
    List Response × ExecCall :=
  let command := installCommand cfg.npmPath cfg.version packageNames
  let hasError :=
    match cfg.exec command cwd with
    | Except.ok _ => false
    | Except.error _ => true
  (onRequestCompleted (!hasError), { command := command, cwd := cwd })

/-- Models an inbound message: the `kind` discriminator is an open string
(the host may in principle send anything), together with the fields read by
the `installPackage` handler. -/
structure RawRequest where
  kind : String
  fileName : List String := []
  packageName : String := ""
  projectRootPath : Option (List String) := none

/-- Responses sent before dispatch (source lines 128-132): the pending
initialization error, when present. -/
def preResponses (st : InstallerState) : List Response :=
  match st.delayed with
  | some m => [Response.initializationFailed m]
  | none => []

/-- Translation of the working-directory resolution of the `installPackage`
handler (source line 151): `getDirectoryOfPackageJson(fileName, host) ||
projectRootPath`. -/
def resolvedCwd (cfg : Config) (req : RawRequest) : Option (List String) :=
  match getDirectoryOfPackageJson req.fileName cfg.fileExists with
  | some d => some d
  | none => req.projectRootPath

/-- Translation of the per-message handler registered by `listen` (source
lines 126-163): first the pending initialization error is sent and cleared,
then the message is dispatched by kind.  The result is the list of responses
sent, the `execSync` calls issued, and the successor state — `none` models
the `Debug.assertNever` abort of the default branch (the pre-dispatch
responses have already been sent when it fires). -/
def handleRequest (cfg : Config) (st : InstallerState) (req : RawRequest) :
    List Response × List ExecCall × Option InstallerState :=
  let pre := preResponses st
  let st1 : InstallerState := { delayed := none }
  if req.kind = "discover" then
    (pre ++ [Response.base "discover"], [], some st1)
  else if req.kind = "closeProject" then
    (pre ++ [Response.base "closeProject"], [], some st1)
  else if req.kind = "typesRegistry" then
    (pre ++ [Response.typesRegistry cfg.typesRegistry], [], some st1)
  else if req.kind = "installPackage" then
    let onRequestCompleted := fun (success : Bool) =>
      [Response.packageInstalled success
        (if success then "Package " ++ req.packageName ++ " installed."
         else "There was an error installing " ++ req.packageName ++ ".")]
    let r := installWorker cfg (-1) [req.packageName] (resolvedCwd cfg req)
      onRequestCompleted
    (pre ++ r.1, [r.2], some st1)
  else
    (pre, [], none)

/-- Runs the message loop over a list of inbound messages, collecting every
response sent; an abort stops the process, so later messages produce
nothing. -/
def run (cfg : Config) (st : InstallerState) : List RawRequest → List Response
  | [] => []
  | req :: rest =>
    (handleRequest cfg st req).1
      ++ (match (handleRequest cfg st req).2.2 with
          | some st1 => run cfg st1 rest
          | none => [])

/-- Counts the initialization-failure responses in a response list. -/
def countInit (rs : List Response) : Nat :=
  rs.countP (fun r =>
    match r with
    | Response.initializationFailed _ => true
    | _ => false)

/-- Legal request kinds of the closed variant `TypingInstallerRequestUnion`. -/
def legalKinds : List String :=
  ["discover", "closeProject", "typesRegistry", "installPackage"]

/-- Clean-exit flag of an `execSync` outcome: true iff the call did not
throw. -/
def execOk (r : Except ExecError String) : Bool :=
  match r with
  | Except.ok _ => true
  | Except.error _ => false

/-- Success flag of one append outcome of the diagnostic sink. -/
def appendSucceeded (o : Except Unit Unit) : Bool :=
  match o with
  | Except.ok _ => true
  | Except.error _ => false

/-- Sample installer configuration whose subprocess runner always exits
cleanly and whose file system is empty. -/
def sampleConfig : Config where
  npmPath := "npm"
  version := "3.0.0"
  typesRegistry := ["lodash"]
  fileExists := fun _ => false
  exec := fun _ _ => Except.ok ""

/-- Sample installer configuration whose subprocess runner always throws. -/
def sampleFailConfig : Config where
  npmPath := "npm"
  version := "3.0.0"
  typesRegistry := ["lodash"]
  fileExists := fun _ => false
  exec := fun _ _ => Except.error { message := "command failed" }

/-! ## Helper lemmas -/

lemma findSome?_if_eq_find? (p : List String → Bool) (l : List (List String)) :
    (l.findSome? (fun d => if p d then some d else none)) = l.find? p := by
  induction l with
  | nil => rfl
  | cons a t ih =>
    rw [List.findSome?_cons, List.find?_cons]
    cases hp : p a <;> simp [hp, ih]

lemma runWrites_cons (l : FileLog) (o : Except Unit Unit) (outs : List (Except Unit Unit)) :
    FileLog.runWrites l (o :: outs) = FileLog.runWrites (l.writeLine o) outs := rfl

/-! ## Claim theorems -/

/-- C9: the diagnostic sink is a one-way state machine.  The enabled flag
after any sequence of `writeLine` calls is the conjunction of the initial
enabled flag with the success of every append so far: hence with no log file
configured `isEnabled` is always false, and once one append fails every later
`isEnabled` call returns false, with no transition back — and `writeLine`
itself is total, so it never raises. -/
theorem fileLog_one_way_state_machine :
    (∀ (l : FileLog) (outs : List (Except Unit Unit)),
        (FileLog.runWrites l outs).isEnabled = (l.isEnabled && outs.all appendSucceeded))
    ∧ (∀ (e : Bool) (outs : List (Except Unit Unit)),
        (FileLog.runWrites { logFile := none, logEnabled := e } outs).isEnabled = false) := by
  have key : ∀ (outs : List (Except Unit Unit)) (l : FileLog),
      (FileLog.runWrites l outs).isEnabled = (l.isEnabled && outs.all appendSucceeded) := by
    intro outs
    induction outs with
    | nil => intro l; simp [FileLog.runWrites]
    | cons o rest ih =>
      intro l
      rw [runWrites_cons, ih]
      cases o with
      | ok _ => simp [FileLog.writeLine, appendSucceeded, Bool.and_assoc]
      | error _ => simp [FileLog.writeLine, FileLog.isEnabled, appendSucceeded]
  refine ⟨fun l outs => key outs l, ?_⟩
  intro e outs
  rw [key outs _]
  simp [FileLog.isEnabled]

/-- C3: loading an existing registry file that parses to a document of shape
`{entries: {...}}` yields a snapshot whose key list is exactly the key list
of `entries`. -/
theorem loadTypesRegistryFile_wellShaped_keys
    (fileExistsB : Bool) (parseOutcome : Except String JVal) (logE : Bool)
    (fields entryFields : List (String × JVal))
    (hfe : fileExistsB = true)
    (hpo : parseOutcome = Except.ok (JVal.obj fields))
    (hent : jLookup fields "entries" = some (JVal.obj entryFields)) :
    (loadTypesRegistryFile fileExistsB parseOutcome logE).1 = entryFields.map Prod.fst := by
  subst hfe hpo
  simp [loadTypesRegistryFile, jsEntriesOf, hent, createMapFromTemplate]

/-- Witness for C3: a registry file containing `{entries: {lodash: null}}`
loads to the snapshot with exactly the key `lodash`. -/
theorem loadTypesRegistryFile_wellShaped_keys_witness :
    (loadTypesRegistryFile true
        (Except.ok (JVal.obj [("entries", JVal.obj [("lodash", JVal.prim)])])) false).1
      = ["lodash"] :=
  loadTypesRegistryFile_wellShaped_keys true _ false
    [("entries", JVal.obj [("lodash", JVal.prim)])] [("lodash", JVal.prim)] rfl rfl rfl

/-- C4: loading never raises (the loader is a total function here) and
returns an empty snapshot whenever the file is missing, the parse throws, or
the parsed document does not have the `{entries: {...}}` shape; moreover no
diagnostic line is emitted when logging is disabled. -/
theorem loadTypesRegistryFile_failure_empty :
    (∀ (fe : Bool) (po : Except String JVal) (logE : Bool),
        (fe = false ∨ (∃ m, po = Except.error m)
            ∨ (∃ v, po = Except.ok v ∧ jsEntriesOf v = none)) →
        (loadTypesRegistryFile fe po logE).1 = [])
    ∧ (∀ (fe : Bool) (po : Except String JVal),
        (loadTypesRegistryFile fe po false).2 = []) := by
  constructor
  · intro fe po logE h
    rcases h with h | ⟨m, rfl⟩ | ⟨v, rfl, hv⟩
    · subst h; simp [loadTypesRegistryFile, createMapFromTemplate]
    · cases fe <;> simp [loadTypesRegistryFile, createMapFromTemplate]
    · cases fe <;> simp [loadTypesRegistryFile, createMapFromTemplate, hv]
  · intro fe po
    cases fe <;> cases po <;> simp [loadTypesRegistryFile]

/-- Witness for C4: a missing file and a file whose parse throws both load to
the empty snapshot. -/
theorem loadTypesRegistryFile_failure_empty_witness :
    (loadTypesRegistryFile false (Except.ok JVal.prim) true).1 = []
      ∧ (loadTypesRegistryFile true (Except.error "Unexpected token") true).1 = []
      ∧ (loadTypesRegistryFile true (Except.ok JVal.prim) true).1 = [] :=
  ⟨loadTypesRegistryFile_failure_empty.1 false _ true (Or.inl rfl),
   loadTypesRegistryFile_failure_empty.1 true _ true (Or.inr (Or.inl ⟨_, rfl⟩)),
   loadTypesRegistryFile_failure_empty.1 true _ true (Or.inr (Or.inr ⟨JVal.prim, rfl, rfl⟩))⟩

/-- C5: the package-root resolver returns the first directory, among the
ancestors of the directory containing the file (nearest first, down to and
including the root), in which `package.json` exists; with the descriptor only
at `/a/b` and the file `/a/b/c/file.ts` it returns `/a/b`; with no descriptor
anywhere it returns `none`. -/
theorem getDirectoryOfPackageJson_nearest_ancestor :
    (∀ (fileExists : List String → Bool) (fileName : List String),
        getDirectoryOfPackageJson fileName fileExists
          = (ancestorDirectories fileName.dropLast).find?
              (fun d => fileExists (d ++ ["package.json"])))
    ∧ getDirectoryOfPackageJson ["a", "b", "c", "file.ts"]
        (fun p => p == ["a", "b", "package.json"]) = some ["a", "b"]
    ∧ (∀ fileName : List String,
        getDirectoryOfPackageJson fileName (fun _ => false) = none) := by
  have key : ∀ (fileExists : List String → Bool) (fileName : List String),
      getDirectoryOfPackageJson fileName fileExists
        = (ancestorDirectories fileName.dropLast).find?
            (fun d => fileExists (d ++ ["package.json"])) := by
    intro fileExists fileName
    unfold getDirectoryOfPackageJson forEachAncestorDirectory
    exact findSome?_if_eq_find? _ _
  refine ⟨key, by rfl, ?_⟩
  intro fileName
  rw [key]
  simp

/-- C6: dispatch aborts (the `Debug.assertNever` default branch, modelled as
the `none` successor state killing the process) exactly on messages whose
kind is not one of the four legal kinds; hence under the precondition that
every inbound message carries a legal kind the abort branch is unreachable. -/
theorem handleRequest_abort_iff_illegal_kind
    (cfg : Config) (st : InstallerState) (req : RawRequest) :
    (handleRequest cfg st req).2.2 = none ↔ req.kind ∉ legalKinds := by
  unfold handleRequest legalKinds
  split_ifs with h1 h2 h3 h4 <;> simp_all

/-- C10: an `installPackage` request whose package-root resolution comes up
empty and which carries no `projectRootPath` hint still reaches the install
worker: exactly one `execSync` call is issued, with an absent working
directory, the process stays alive, and a package-installed response is still
produced. -/
theorem installPackage_absent_cwd_still_installs
    (cfg : Config) (st : InstallerState) (req : RawRequest)
    (hk : req.kind = "installPackage")
    (hg : getDirectoryOfPackageJson req.fileName cfg.fileExists = none)
    (hp : req.projectRootPath = none) :
    (handleRequest cfg st req).2.1
        = [{ command := installCommand cfg.npmPath cfg.version [req.packageName],
             cwd := none }]
      ∧ (handleRequest cfg st req).2.2 = some { delayed := none }
      ∧ ∃ s m, (handleRequest cfg st req).1
          = preResponses st ++ [Response.packageInstalled s m] := by
  have hcwd : resolvedCwd cfg req = none := by
    simp [resolvedCwd, hg, hp]
  unfold handleRequest
  rw [hk]
  refine ⟨?_, ?_, ?_⟩
  · simp [installWorker, hcwd]
  · simp
  · cases h : cfg.exec (installCommand cfg.npmPath cfg.version [req.packageName])
        (resolvedCwd cfg req) with
    | ok a =>
      exact ⟨true, "Package " ++ req.packageName ++ " installed.",
        by simp [installWorker, h]⟩
    | error e =>
      exact ⟨false, "There was an error installing " ++ req.packageName ++ ".",
        by simp [installWorker, h]⟩

/-- Witness for C10: with an empty file system, no hint and a nowhere-found
descriptor, the handler issues the npm install command with no working
directory and answers with a package-installed response. -/
theorem installPackage_absent_cwd_still_installs_witness :
    (handleRequest sampleConfig { delayed := none }
        { kind := "installPackage", fileName := ["file.ts"], packageName := "react" }).2.1
      = [{ command := installCommand "npm" "3.0.0" ["react"], cwd := none }] :=
  (installPackage_absent_cwd_still_installs sampleConfig { delayed := none }
    { kind := "installPackage", fileName := ["file.ts"], packageName := "react" }
    rfl rfl rfl).1

/-- C2: an `installPackage` request produces exactly one package-installed
response (after the possible pending bootstrap error), whose success flag is
true iff the `execSync` call exited cleanly and whose message is the
corresponding installed / error text; and `installWorker` invokes its
completion continuation exactly once, with that flag, before returning — the
output is one application of the continuation, for every continuation. -/
theorem installPackage_exactly_one_response
    (cfg : Config) (st : InstallerState) (req : RawRequest)
    (hk : req.kind = "installPackage") :
    ((handleRequest cfg st req).1
        = preResponses st
          ++ [Response.packageInstalled
                (execOk (cfg.exec (installCommand cfg.npmPath cfg.version [req.packageName])
                  (resolvedCwd cfg req)))
                (if execOk (cfg.exec (installCommand cfg.npmPath cfg.version [req.packageName])
                      (resolvedCwd cfg req))
                 then "Package " ++ req.packageName ++ " installed."
                 else "There was an error installing " ++ req.packageName ++ ".")])
      ∧ (∀ (k : Bool → List Response) (requestId : Int) (names : List String)
            (cwd : Option (List String)),
          (installWorker cfg requestId names cwd k).1
            = k (execOk (cfg.exec (installCommand cfg.npmPath cfg.version names) cwd))) := by
  have worker : ∀ (k : Bool → List Response) (requestId : Int) (names : List String)
      (cwd : Option (List String)),
      (installWorker cfg requestId names cwd k).1
        = k (execOk (cfg.exec (installCommand cfg.npmPath cfg.version names) cwd)) := by
    intro k requestId names cwd
    unfold installWorker
    cases h : cfg.exec (installCommand cfg.npmPath cfg.version names) cwd <;>
      simp [h, execOk]
  refine ⟨?_, worker⟩
  unfold handleRequest
  rw [hk]
  simp only [String.reduceEq, if_false, if_true, reduceIte]
  rw [worker]

/-- Witness for C2: an `installPackage` request for `react` against a runner
whose command throws yields exactly the failure response of the spec
scenario. -/
theorem installPackage_exactly_one_response_witness :
    (handleRequest sampleFailConfig { delayed := none }
        { kind := "installPackage", fileName := ["file.ts"], packageName := "react" }).1
      = [Response.packageInstalled false "There was an error installing react."] := by
  have h := (installPackage_exactly_one_response sampleFailConfig { delayed := none }
    { kind := "installPackage", fileName := ["file.ts"], packageName := "react" } rfl).1
  simpa [sampleFailConfig, preResponses, execOk] using h

lemma handleRequest_next_state (cfg : Config) (st : InstallerState) (req : RawRequest) :
    (handleRequest cfg st req).2.2 = none
      ∨ (handleRequest cfg st req).2.2 = some { delayed := none } := by
  unfold handleRequest
  split_ifs <;> simp

lemma countInit_append (a b : List Response) :
    countInit (a ++ b) = countInit a + countInit b :=
  List.countP_append _ _ _

lemma countInit_handleRequest (cfg : Config) (st : InstallerState) (req : RawRequest) :
    countInit (handleRequest cfg st req).1 = countInit (preResponses st) := by
  unfold handleRequest
  split_ifs <;> simp [countInit, List.countP_append, installWorker]

lemma countInit_pre_none (st : InstallerState) (h : st.delayed = none) :
    countInit (preResponses st) = 0 := by
  simp [preResponses, h, countInit]

lemma countInit_pre_some (st : InstallerState) (m : String) (h : st.delayed = some m) :
    countInit (preResponses st) = 1 := by
  simp [preResponses, h, countInit]

lemma countInit_run_cleared (cfg : Config) (reqs : List RawRequest) :
    countInit (run cfg { delayed := none } reqs) = 0 := by
  induction reqs with
  | nil => simp [run, countInit]
  | cons req rest ih =>
    rw [run, countInit_append, countInit_handleRequest, countInit_pre_none _ rfl]
    rcases handleRequest_next_state cfg { delayed := none } req with h | h
    · simp [h, countInit]
    · rw [h]
      simpa using ih

lemma handleRequest_head_some (cfg : Config) (m : String) (st : InstallerState)
    (h : st.delayed = some m) (req : RawRequest) :
    ∃ t, (handleRequest cfg st req).1 = Response.initializationFailed m :: t := by
  unfold handleRequest
  simp only [preResponses, h]
  split_ifs <;> exact ⟨_, rfl⟩

/-- C1: a pending bootstrap error (recorded because the registry-package
update threw) is sent as the very first response once any first inbound
message arrives, and over the whole message trace it is sent exactly once;
when the bootstrap update succeeded, no initialization-failure response is
ever sent. -/
theorem delayedInitializationError_sent_exactly_once :
    (∀ (cfg : Config) (e : ExecError) (reqs : List RawRequest),
        reqs ≠ [] →
        (run cfg (bootstrapState (Except.error e)) reqs).head?
            = some (Response.initializationFailed e.message)
          ∧ countInit (run cfg (bootstrapState (Except.error e)) reqs) = 1)
    ∧ (∀ (cfg : Config) (out : String) (reqs : List RawRequest),
        countInit (run cfg (bootstrapState (Except.ok out)) reqs) = 0) := by
  constructor
  · intro cfg e reqs hne
    cases reqs with
    | nil => exact absurd rfl hne
    | cons req rest =>
      have hst : (bootstrapState (Except.error e)).delayed = some e.message := rfl
      obtain ⟨t, ht⟩ := handleRequest_head_some cfg e.message _ hst req
      constructor
      · rw [run, ht]
        rfl
      · rw [run, countInit_append, countInit_handleRequest, countInit_pre_some _ e.message hst]
        rcases handleRequest_next_state cfg (bootstrapState (Except.error e)) req with h | h
        · simp [h, countInit]
        · rw [h]
          simpa using countInit_run_cleared cfg rest
  · intro cfg out reqs
    exact countInit_run_cleared cfg reqs

/-- Witness for C1: after a bootstrap failure with message
`network unreachable`, a two-message trace answers with the
initialization-failure response first and contains it exactly once. -/
theorem delayedInitializationError_sent_exactly_once_witness :
    (run sampleConfig (bootstrapState (Except.error { message := "network unreachable" }))
        [{ kind := "typesRegistry" }, { kind := "discover" }]).head?
        = some (Response.initializationFailed "network unreachable")
      ∧ countInit (run sampleConfig
          (bootstrapState (Except.error { message := "network unreachable" }))
          [{ kind := "typesRegistry" }, { kind := "discover" }]) = 1 :=
  delayedInitializationError_sent_exactly_once.1 sampleConfig
    { message := "network unreachable" }
    [{ kind := "typesRegistry" }, { kind := "discover" }] (by simp)

lemma jsIndexOfAux_lower (sub : List Char) (l : List Char) :
    ∀ i : Nat, jsIndexOfAux sub l i = -1 ∨ (i : Int) ≤ jsIndexOfAux sub l i := by
  induction l with
  | nil =>
    intro i
    unfold jsIndexOfAux
    split_ifs with h
    · right; exact le_refl _
    · left; rfl
  | cons c t ih =>
    intro i
    unfold jsIndexOfAux
    split_ifs with h
    · right; exact le_refl _
    · rcases ih (i + 1) with h2 | h2
      · left; exact h2
      · right
        refine le_trans ?_ h2
        push_cast
        omega

lemma jsIndexOfAux_zero_iff (sub l : List Char) :
    jsIndexOfAux sub l 0 = 0 ↔ sub.isPrefixOf l = true := by
  unfold jsIndexOfAux
  split_ifs with h
  · simp [h]
  · cases l with
    | nil =>
      show (-1 : Int) = 0 ↔ sub.isPrefixOf [] = true
      exact iff_of_false (by omega) h
    | cons c t =>
      show jsIndexOfAux sub t 1 = 0 ↔ sub.isPrefixOf (c :: t) = true
      refine iff_of_false ?_ h
      intro hx
      rcases jsIndexOfAux_lower sub t 1 with h2 | h2
      · rw [hx] at h2; exact absurd h2 (by omega)
      · rw [hx] at h2; exact absurd h2 (by omega)

lemma jsIndexOf_eq_zero_iff (s sub : String) :
    jsIndexOf s sub = 0 ↔ sub.data.isPrefixOf s.data = true := by
  unfold jsIndexOf
  exact jsIndexOfAux_zero_iff _ _

/-- C7 (amended): with no explicit package-manager location, the default is
the quoted sibling `npm` path next to the program entry exactly when the
basename of the process name *starts with* `node` (the source tests
`indexOf("node") === 0`), and the bare command `npm` otherwise. -/
theorem getDefaultNPMLocation_startsWith_node (argv0 processName : String) :
    getDefaultNPMLocation argv0 processName
      = (if "node".data.isPrefixOf (basename processName).data
         then "\"" ++ pathJoin (dirname argv0) "npm" ++ "\""
         else "npm") := by
  unfold getDefaultNPMLocation
  by_cases h : jsIndexOf (basename processName) "node" = 0
  · rw [if_pos h, if_pos ((jsIndexOf_eq_zero_iff _ _).mp h)]
  · rw [if_neg h, if_neg (fun hb => h ((jsIndexOf_eq_zero_iff _ _).mpr hb))]

/-- Counterexample for C7 as stated: the process name `/usr/bin/foonode` has
a basename that *contains* the substring `node`, yet the default is the bare
`npm`, not the quoted sibling path that the claim predicts. -/
theorem getDefaultNPMLocation_contains_counterexample :
    stringContains (basename "/usr/bin/foonode") "node" = true
      ∧ getDefaultNPMLocation "/usr/bin/foonode" "/usr/bin/foonode" = "npm"
      ∧ getDefaultNPMLocation "/usr/bin/foonode" "/usr/bin/foonode"
          ≠ "\"" ++ pathJoin (dirname "/usr/bin/foonode") "npm" ++ "\"" := by
  refine ⟨by decide, rfl, by decide⟩

lemma intercalate_go_append (s : String) (as : List String) :
    ∀ (acc b : String),
      String.intercalate.go (b ++ acc) s as = b ++ String.intercalate.go acc s as := by
  induction as with
  | nil => intro acc b; rfl
  | cons a t ih =>
    intro acc b
    show String.intercalate.go (b ++ acc ++ s ++ a) s t
      = b ++ String.intercalate.go (acc ++ s ++ a) s t
    have e : b ++ acc ++ s ++ a = b ++ (acc ++ s ++ a) := by
      simp [String.append_assoc]
    rw [e]
    exact ih (acc ++ s ++ a) b

lemma intercalate_cons_ne (s a : String) (l : List String) (h : l ≠ []) :
    String.intercalate s (a :: l) = a ++ s ++ String.intercalate s l := by
  cases l with
  | nil => exact absurd rfl h
  | cons b t =>
    show String.intercalate.go (a ++ s ++ b) s t = a ++ s ++ String.intercalate.go b s t
    exact intercalate_go_append s t b (a ++ s)

lemma intercalate_append_ne (s : String) (l₁ l₂ : List String)
    (h₁ : l₁ ≠ []) (h₂ : l₂ ≠ []) :
    String.intercalate s (l₁ ++ l₂)
      = String.intercalate s l₁ ++ s ++ String.intercalate s l₂ := by
  induction l₁ with
  | nil => exact absurd rfl h₁
  | cons a t ih =>
    cases t with
    | nil =>
      show String.intercalate s (a :: l₂) = _
      rw [intercalate_cons_ne s a l₂ h₂]
      rfl
    | cons b t2 =>
      have e : (a :: b :: t2) ++ l₂ = a :: ((b :: t2) ++ l₂) := rfl
      rw [e, intercalate_cons_ne s a _ (by simp),
        ih (by simp), intercalate_cons_ne s a (b :: t2) (by simp)]
      simp [String.append_assoc]

/-- C8: for every non-empty package-name sequence (a single name included,
with no special-casing) the install worker issues the single command line
consisting of the npm path, `install --ignore-scripts`, the names in order
separated by spaces, `--save-dev`, and the user-agent flag carrying the tool
name and version — all joined by single spaces. -/
theorem installWorker_command_line (cfg : Config) (requestId : Int)
    (packageNames : List String) (cwd : Option (List String))
    (k : Bool → List Response) (h : packageNames ≠ []) :
    (installWorker cfg requestId packageNames cwd k).2.command
      = String.intercalate " "
          ([cfg.npmPath, "install", "--ignore-scripts"] ++ packageNames
            ++ ["--save-dev",
                "--user-agent=\"typesInstaller/" ++ cfg.version ++ "\""]) := by
  show installCommand cfg.npmPath cfg.version packageNames = _
  unfold installCommand
  rw [List.append_assoc]
  have shape : ([cfg.npmPath, "install", "--ignore-scripts"] : List String)
        ++ (packageNames
            ++ ["--save-dev", "--user-agent=\"typesInstaller/" ++ cfg.version ++ "\""])
      = cfg.npmPath :: "install" :: "--ignore-scripts"
          :: (packageNames
              ++ ["--save-dev",
                  "--user-agent=\"typesInstaller/" ++ cfg.version ++ "\""]) := rfl
  rw [shape]
  rw [intercalate_cons_ne _ _ _ (by simp), intercalate_cons_ne _ _ _ (by simp),
    intercalate_cons_ne _ _ _ (by simp [h])]
  rw [intercalate_append_ne " " packageNames _ h (by simp)]
  rw [intercalate_cons_ne " " "--save-dev" _ (by simp)]
  have single :
      String.intercalate " " ["--user-agent=\"typesInstaller/" ++ cfg.version ++ "\""]
        = "--user-agent=\"typesInstaller/" ++ cfg.version ++ "\"" := rfl
  rw [single]
  apply String.ext
  have a1 : (" install --ignore-scripts " : String).data
      = (" " : String).data ++ ("install" : String).data ++ (" " : String).data
        ++ ("--ignore-scripts" : String).data ++ (" " : String).data := rfl
  have a2 : (" --save-dev --user-agent=\"typesInstaller/" : String).data
      = (" " : String).data ++ ("--save-dev" : String).data ++ (" " : String).data
        ++ ("--user-agent=\"typesInstaller/" : String).data := rfl
  simp [String.data_append, a1, a2, List.append_assoc]

/-- Witness for C8: with a single package name `react`, the worker issues the
full command with no special-casing. -/
theorem installWorker_command_line_witness :
    (installWorker sampleConfig (-1) ["react"] none (fun _ => [])).2.command
        = String.intercalate " "
            (["npm", "install", "--ignore-scripts"] ++ ["react"]
              ++ ["--save-dev", "--user-agent=\"typesInstaller/" ++ "3.0.0" ++ "\""])
      ∧ (installWorker sampleConfig (-1) ["react"] none (fun _ => [])).2.command
        = "npm install --ignore-scripts react --save-dev --user-agent=\"typesInstaller/3.0.0\"" :=
  ⟨installWorker_command_line sampleConfig (-1) ["react"] none (fun _ => []) (by simp),
   rfl⟩

end NodeTypingsInstaller
